import Mathlib

/-!
Verification of the Postgres frontier worker (workers/pg_worker.py).

The frontier table is embedded as a list of rows; each SQL statement of the
worker module becomes a pure function on that list.  Timestamps are integers,
scores are rationals, and the configuration constants (MAX_ATTEMPTS,
STALE_THRESHOLD_MINUTES, BATCH_SIZE, WORKER_ID) become explicit parameters.
The concurrent semantics of FOR UPDATE SKIP LOCKED is modelled separately as
an interleaving of two scanning transactions over an explicit row-lock table.
-/

/-- Lifecycle state of a frontier row: queued, in_progress, done or error. -/
inductive FState where
  | queued
  | in_progress
  | done
  | error
deriving DecidableEq, Repr

/-- One row of the frontier table (schema used by workers/pg_worker.py). -/
structure Row where
  id : Nat
  url : String
  score : Rat
  state : FState
  attempt_count : Nat
  last_attempt : Option Int
  worker_id : Option String
  error_message : Option String
  metadata : String
  updated_at : Int
deriving DecidableEq, Repr

/-- Eligibility filter of the claim query:
state = 'queued' AND attempt_count < MAX_ATTEMPTS. -/
def eligibleRow (maxAttempts : Nat) (r : Row) : Bool :=
  r.state == FState.queued && decide (r.attempt_count < maxAttempts)

/-- Scan order of the claim query, ORDER BY score DESC, id DESC:
r1 may come before r2. -/
def claimLE (r1 r2 : Row) : Bool :=
  decide (r2.score < r1.score) || (r1.score == r2.score && decide (r2.id ≤ r1.id))

/-- Per-row update of the claim query: SET state = 'in_progress',
last_attempt = now(), attempt_count = attempt_count + 1, worker_id = w. -/
def claimUpdate (now : Int) (workerId : String) (r : Row) : Row :=
  { r with
    state := FState.in_progress
    last_attempt := some now
    attempt_count := r.attempt_count + 1
    worker_id := some workerId }

/-- Ids selected by the subquery of fetch_and_lock: eligible rows, sorted by
score DESC then id DESC, limited to batchSize (sequential semantics, no
concurrent lock holder). -/
def selectedIds (maxAttempts batchSize : Nat) (fr : List Row) : List Nat :=
  ((((fr.filter (eligibleRow maxAttempts)).mergeSort claimLE).take batchSize).map Row.id)

/-- Result of fetch_and_lock: the updated table and the RETURNING * rows. -/
structure ClaimResult where
  frontier : List Row
  claimed : List Row
deriving DecidableEq, Repr

/-- Fetch and lock frontier items (the UPDATE ... WHERE id IN (SELECT ...)
RETURNING * statement of fetch_and_lock). -/
def fetch_and_lock (now : Int) (workerId : String) (maxAttempts batchSize : Nat)
    (fr : List Row) : ClaimResult :=
  let sel := selectedIds maxAttempts batchSize fr
  let upd := fun r => if sel.contains r.id then claimUpdate now workerId r else r
  { frontier := fr.map upd
    claimed := (fr.filter (fun r => sel.contains r.id)).map upd }

/-- Per-row update of mark_done: SET state = 'done', worker_id = NULL,
updated_at = now() WHERE id = item_id. -/
def markDoneRow (now : Int) (itemId : Nat) (r : Row) : Row :=
  if r.id = itemId then
    { r with state := FState.done, worker_id := none, updated_at := now }
  else r

/-- Mark a frontier item as done. -/
def mark_done (now : Int) (itemId : Nat) (fr : List Row) : List Row :=
  fr.map (markDoneRow now itemId)

/-- Per-row update of mark_error: SET state = CASE WHEN attempt_count >=
MAX_ATTEMPTS THEN 'error' ELSE 'queued' END, error_message = msg,
worker_id = NULL, updated_at = now() WHERE id = item_id. -/
def markErrorRow (now : Int) (maxAttempts : Nat) (itemId : Nat) (msg : String)
    (r : Row) : Row :=
  if r.id = itemId then
    { r with
      state := if maxAttempts ≤ r.attempt_count then FState.error else FState.queued
      error_message := some msg
      worker_id := none
      updated_at := now }
  else r

/-- Mark a frontier item as error (or requeue it while attempts remain). -/
def mark_error (now : Int) (maxAttempts : Nat) (itemId : Nat) (msg : String)
    (fr : List Row) : List Row :=
  fr.map (markErrorRow now maxAttempts itemId msg)

/-- Staleness filter of requeue_stale_items: state = 'in_progress' AND
last_attempt < threshold AND attempt_count < MAX_ATTEMPTS (a NULL
last_attempt never compares below the threshold). -/
def staleRow (threshold : Int) (maxAttempts : Nat) (r : Row) : Bool :=
  r.state == FState.in_progress
    && (match r.last_attempt with
        | some t => decide (t < threshold)
        | none => false)
    && decide (r.attempt_count < maxAttempts)

/-- Per-row update of requeue_stale_items: SET state = 'queued',
worker_id = NULL, updated_at = now() on stale rows. -/
def requeueRow (now threshold : Int) (maxAttempts : Nat) (r : Row) : Row :=
  if staleRow threshold maxAttempts r then
    { r with state := FState.queued, worker_id := none, updated_at := now }
  else r

/-- Requeue items stuck in 'in_progress'; the threshold is
now - STALE_THRESHOLD_MINUTES.  Returns the updated table and cur.rowcount,
the number of rows matched by the WHERE clause. -/
def requeue_stale_items (now staleThreshold : Int) (maxAttempts : Nat)
    (fr : List Row) : List Row × Nat :=
  (fr.map (requeueRow now (now - staleThreshold) maxAttempts),
    fr.countP (staleRow (now - staleThreshold) maxAttempts))

/-- Target columns named by the INSERT statement of add_urls:
url, score, metadata, state. -/
def insertTargetColumns : Nat := 4

/-- Expressions in each tuple that add_urls hands to execute_values:
url, score, and the serialized metadata — the state column gets no value. -/
def insertValueExprs : Nat := 3

/-- Bulk insert of add_urls.  The INSERT names four target columns while each
tuple supplied to execute_values carries only three expressions, so the
database rejects the statement on every non-empty url list and add_urls
rolls back and re-raises; with an empty url list execute_values issues no
statement and the call returns leaving the table untouched.  The state is
the table together with the next serial id. -/
def add_urls (_score : Rat) (_md : String) (urls : List String)
    (st : List Row × Nat) : Except String (List Row × Nat) :=
  if urls.isEmpty then Except.ok st
  else Except.error "INSERT has more target columns than expressions"

/-- Aggregates of one state group of the get_stats query. -/
structure StateStat where
  count : Nat
  avg_score : Rat
  max_attempts : Nat
deriving DecidableEq, Repr

/-- Aggregate row of get_stats for one state: COUNT(*), AVG(score),
MAX(attempt_count) over the rows in that state. -/
def statsFor (fr : List Row) (s : FState) : StateStat :=
  let g := fr.filter (fun r => r.state == s)
  { count := g.length
    avg_score := (g.map Row.score).sum / (g.length : Rat)
    max_attempts := (g.map Row.attempt_count).foldr Nat.max 0 }

/-- Result rows of the statistics query, GROUP BY state, keyed by state. -/
def statsRows (fr : List Row) : List (FState × StateStat) :=
  ((fr.map Row.state).dedup).map (fun s => (s, statsFor fr s))

/-- Frontier statistics.  get_stats acquires its connection before entering
the try block, so a connection-acquisition failure (first argument)
propagates to the caller; once a connection is held, a failure of the query
itself (second argument) is caught and the empty dictionary returned, and a
successful query is grouped by state. -/
def get_stats (connection : Except String Unit) (q : Except String (List Row)) :
    Except String (List (FState × StateStat)) :=
  match connection with
  | Except.error e => Except.error e
  | Except.ok _ =>
    match q with
    | Except.error _ => Except.ok []
    | Except.ok fr => Except.ok (statsRows fr)

/-- Finalization of one claimed item in the worker loop: mark_done on success,
mark_error on failure. -/
def finalizeItem (now : Int) (maxAttempts : Nat) (process : Row → Bool)
    (fr : List Row) (item : Row) : List Row :=
  if process item then mark_done now item.id fr
  else mark_error now maxAttempts item.id "Processing failed" fr

/-- One pass of the while-body of worker_loop: fetch a batch; when it is empty,
sleep and continue (the pass ends); otherwise process and finalize each item
and then run requeue_stale_items.  The boolean records whether this pass
invoked requeue_stale_items. -/
def worker_pass (now : Int) (workerId : String) (maxAttempts batchSize : Nat)
    (staleThreshold : Int) (process : Row → Bool) (fr : List Row) :
    List Row × Bool :=
  let res := fetch_and_lock now workerId maxAttempts batchSize fr
  if res.claimed.isEmpty then (res.frontier, false)
  else
    ((requeue_stale_items now staleThreshold maxAttempts
        (res.claimed.foldl (finalizeItem now maxAttempts process) res.frontier)).1,
      true)

/-- Per-row effect of one failed processing cycle on the row it concerns: the
claim update of fetch_and_lock followed by the mark_error update. -/
def rowCycle (now1 now2 : Int) (workerId msg : String) (maxAttempts : Nat)
    (r : Row) : Row :=
  markErrorRow now2 maxAttempts r.id msg (claimUpdate now1 workerId r)

/-- Concrete queued row used to exercise the theorems. -/
def sampleRow : Row :=
  { id := 1
    url := "https://a"
    score := 1
    state := FState.queued
    attempt_count := 0
    last_attempt := none
    worker_id := none
    error_message := none
    metadata := "m"
    updated_at := 0 }

/-- Second concrete queued row with a distinct id and url. -/
def sampleRow2 : Row :=
  { sampleRow with id := 2, url := "https://b", score := 2 }

/-- Concrete finished row: state done after one attempt. -/
def doneRow : Row :=
  { sampleRow with id := 3, url := "https://d", state := FState.done, attempt_count := 1 }

/-- Contract of fetch_and_lock: bounded batch, only eligible rows, each updated
as the claim transition prescribes, all selected rows returned, selection
dominates every eligible row left behind in the (score DESC, id DESC) order,
and no eligible row yields an empty result and an unchanged table. -/
def FetchSpec (now : Int) (w : String) (maxAttempts batchSize : Nat)
    (fr : List Row) : Prop :=
  (fetch_and_lock now w maxAttempts batchSize fr).claimed.length ≤ batchSize ∧
  (∀ r ∈ (fetch_and_lock now w maxAttempts batchSize fr).claimed, ∃ r0 ∈ fr,
      r0.state = FState.queued ∧ r0.attempt_count < maxAttempts ∧
      r = claimUpdate now w r0) ∧
  (∀ r0 ∈ fr, (selectedIds maxAttempts batchSize fr).contains r0.id = true →
      claimUpdate now w r0 ∈ (fetch_and_lock now w maxAttempts batchSize fr).claimed) ∧
  (∀ r ∈ (fetch_and_lock now w maxAttempts batchSize fr).claimed, ∀ q ∈ fr,
      eligibleRow maxAttempts q = true →
      (selectedIds maxAttempts batchSize fr).contains q.id = false →
      claimLE r q = true) ∧
  ((∀ r ∈ fr, eligibleRow maxAttempts r = false) →
      (fetch_and_lock now w maxAttempts batchSize fr).claimed = [] ∧
      (fetch_and_lock now w maxAttempts batchSize fr).frontier = fr)

/-- One of the two concurrently claiming transactions. -/
inductive Tx where
  | A
  | B
deriving DecidableEq, Repr

/-- Scan state of one claiming transaction: ids still to examine in scan
order, ids locked and selected so far, and the remaining LIMIT budget. -/
structure TxScan where
  pending : List Nat
  acquired : List Nat
  budget : Nat
deriving DecidableEq, Repr

/-- Joint state of two concurrent fetch_and_lock executions: both scan states
plus the table of row locks held (FOR UPDATE). -/
structure ClaimRace where
  a : TxScan
  b : TxScan
  locks : List (Nat × Tx)
deriving DecidableEq, Repr

/-- The opposite transaction. -/
def otherTx : Tx → Tx
  | Tx.A => Tx.B
  | Tx.B => Tx.A

/-- Scan state of the given transaction. -/
def getTx (s : ClaimRace) : Tx → TxScan
  | Tx.A => s.a
  | Tx.B => s.b

/-- Replace the scan state of the given transaction. -/
def setTx (s : ClaimRace) : Tx → TxScan → ClaimRace
  | Tx.A, t => { s with a := t }
  | Tx.B, t => { s with b := t }

/-- The row lock on id i is held by the transaction concurrent to t. -/
def lockedByOther (locks : List (Nat × Tx)) (t : Tx) (i : Nat) : Bool :=
  locks.any (fun p => p.1 == i && p.2 == otherTx t)

/-- One scan step of transaction t — the row-at-a-time semantics of
SELECT ... ORDER BY ... FOR UPDATE SKIP LOCKED LIMIT n: examine the next id
in scan order; stop once the LIMIT budget is exhausted; skip the row when the
concurrent transaction holds its lock; otherwise acquire the exclusive row
lock and select the row. -/
def txStepGo (t : Tx) (s : ClaimRace) : List Nat → ClaimRace
  | [] => s
  | i :: rest =>
    if (getTx s t).budget = 0 then setTx s t { getTx s t with pending := [] }
    else if lockedByOther s.locks t i then setTx s t { getTx s t with pending := rest }
    else
      { setTx s t
          { pending := rest
            acquired := i :: (getTx s t).acquired
            budget := (getTx s t).budget - 1 } with
        locks := (i, t) :: s.locks }

/-- One scan step of transaction t, dispatching on its pending ids. -/
def txStep (t : Tx) (s : ClaimRace) : ClaimRace :=
  txStepGo t s (getTx s t).pending

/-- Interleaved execution of the two claim scans under a schedule. -/
def runRace (sched : List Tx) (s : ClaimRace) : ClaimRace :=
  sched.foldl (fun s t => txStep t s) s

/-- Scan order of the claim subquery over the whole table (the LIMIT is
enforced during the scan by the budget). -/
def scanOrder (maxAttempts : Nat) (fr : List Row) : List Nat :=
  ((fr.filter (eligibleRow maxAttempts)).mergeSort claimLE).map Row.id

/-- Initial race state: both transactions scan the same eligible rows in the
same order and hold no locks. -/
def initRace (maxAttempts bA bB : Nat) (fr : List Row) : ClaimRace :=
  { a := { pending := scanOrder maxAttempts fr, acquired := [], budget := bA }
    b := { pending := scanOrder maxAttempts fr, acquired := [], budget := bB }
    locks := [] }

/-- Lock-table invariant of the race: every id a transaction has selected is
locked by it, and no row lock is held by both transactions. -/
def RaceInv (s : ClaimRace) : Prop :=
  (∀ i, i ∈ s.a.acquired → (i, Tx.A) ∈ s.locks) ∧
  (∀ i, i ∈ s.b.acquired → (i, Tx.B) ∈ s.locks) ∧
  (∀ i, ¬((i, Tx.A) ∈ s.locks ∧ (i, Tx.B) ∈ s.locks))

lemma contains_true_iff (l : List Nat) (a : Nat) : l.contains a = true ↔ a ∈ l :=
  List.elem_iff

lemma claimLE_trans (a b c : Row) (h1 : claimLE a b = true) (h2 : claimLE b c = true) :
    claimLE a c = true := by
  simp only [claimLE, Bool.or_eq_true, Bool.and_eq_true, decide_eq_true_eq,
    beq_iff_eq] at h1 h2 ⊢
  rcases h1 with h1 | ⟨h1e, h1i⟩
  · rcases h2 with h2 | ⟨h2e, h2i⟩
    · exact Or.inl (lt_trans h2 h1)
    · exact Or.inl (h2e ▸ h1)
  · rcases h2 with h2 | ⟨h2e, h2i⟩
    · exact Or.inl (lt_of_lt_of_eq h2 h1e.symm)
    · exact Or.inr ⟨h1e.trans h2e, le_trans h2i h1i⟩

lemma claimLE_total (a b : Row) : (claimLE a b || claimLE b a) = true := by
  simp only [claimLE, Bool.or_eq_true, Bool.and_eq_true, decide_eq_true_eq, beq_iff_eq]
  rcases lt_trichotomy a.score b.score with h | h | h
  · exact Or.inr (Or.inl h)
  · rcases le_total a.id b.id with hi | hi
    · exact Or.inr (Or.inr ⟨h.symm, hi⟩)
    · exact Or.inl (Or.inr ⟨h, hi⟩)
  · exact Or.inl (Or.inl h)

lemma claimLE_claimUpdate (now : Int) (w : String) (r q : Row) :
    claimLE (claimUpdate now w r) q = claimLE r q := rfl

lemma eligibleRow_iff (maxAttempts : Nat) (r : Row) :
    eligibleRow maxAttempts r = true ↔
      r.state = FState.queued ∧ r.attempt_count < maxAttempts := by
  simp [eligibleRow]

lemma mem_selectedIds (maxAttempts batchSize : Nat) (fr : List Row) (i : Nat)
    (hi : i ∈ selectedIds maxAttempts batchSize fr) :
    ∃ q, q ∈ fr ∧ eligibleRow maxAttempts q = true ∧ q.id = i ∧
      q ∈ ((fr.filter (eligibleRow maxAttempts)).mergeSort claimLE).take batchSize := by
  unfold selectedIds at hi
  obtain ⟨q, hq, hqi⟩ := List.mem_map.mp hi
  have hq2 : q ∈ fr.filter (eligibleRow maxAttempts) :=
    List.mem_mergeSort.mp (List.mem_of_mem_take hq)
  exact ⟨q, (List.mem_filter.mp hq2).1, (List.mem_filter.mp hq2).2, hqi, hq⟩

lemma fetch_claimed_mem (now : Int) (w : String) (maxAttempts batchSize : Nat)
    (fr : List Row) (r : Row)
    (hr : r ∈ (fetch_and_lock now w maxAttempts batchSize fr).claimed) :
    ∃ r0, r0 ∈ fr ∧ (selectedIds maxAttempts batchSize fr).contains r0.id = true ∧
      r = claimUpdate now w r0 := by
  unfold fetch_and_lock at hr
  simp only at hr
  obtain ⟨r0, hr0, hrr⟩ := List.mem_map.mp hr
  have h1 := List.mem_filter.mp hr0
  refine ⟨r0, h1.1, h1.2, ?_⟩
  rw [← hrr, if_pos h1.2]

lemma fetch_claimed_sound (now : Int) (w : String) (maxAttempts batchSize : Nat)
    (fr : List Row) (hids : (fr.map Row.id).Nodup) (r : Row)
    (hr : r ∈ (fetch_and_lock now w maxAttempts batchSize fr).claimed) :
    ∃ r0, r0 ∈ fr ∧ eligibleRow maxAttempts r0 = true ∧
      (selectedIds maxAttempts batchSize fr).contains r0.id = true ∧
      r0 ∈ ((fr.filter (eligibleRow maxAttempts)).mergeSort claimLE).take batchSize ∧
      r = claimUpdate now w r0 := by
  obtain ⟨r0, h0, hc, he⟩ := fetch_claimed_mem now w maxAttempts batchSize fr r hr
  obtain ⟨q, hqf, hqe, hqid, hqtake⟩ :=
    mem_selectedIds maxAttempts batchSize fr r0.id ((contains_true_iff _ _).mp hc)
  have hq0 : q = r0 := List.inj_on_of_nodup_map hids hqf h0 hqid
  exact ⟨r0, h0, hq0 ▸ hqe, hc, hq0 ▸ hqtake, he⟩

lemma nodup_subset_length_le (l s : List Nat) (hl : l.Nodup)
    (hsub : ∀ a ∈ l, a ∈ s) : l.length ≤ s.length := by
  calc l.length = l.toFinset.card := (List.toFinset_card_of_nodup hl).symm
    _ ≤ s.toFinset.card := by
        apply Finset.card_le_card
        intro a ha
        exact List.mem_toFinset.mpr (hsub a (List.mem_toFinset.mp ha))
    _ ≤ s.length := List.toFinset_card_le s

lemma staleRow_true_iff (threshold : Int) (maxAttempts : Nat) (r : Row) :
    staleRow threshold maxAttempts r = true ↔
      (r.state = FState.in_progress ∧
        (∃ t, r.last_attempt = some t ∧ t < threshold) ∧
        r.attempt_count < maxAttempts) := by
  cases hla : r.last_attempt <;> simp [staleRow, hla, and_assoc]

lemma selectedIds_length_le (maxAttempts batchSize : Nat) (fr : List Row) :
    (selectedIds maxAttempts batchSize fr).length ≤ batchSize := by
  unfold selectedIds
  rw [List.length_map]
  exact List.length_take_le batchSize _

lemma fetch_claimed_length_le (now : Int) (w : String) (maxAttempts batchSize : Nat)
    (fr : List Row) (hids : (fr.map Row.id).Nodup) :
    (fetch_and_lock now w maxAttempts batchSize fr).claimed.length ≤ batchSize := by
  unfold fetch_and_lock
  simp only [List.length_map]
  set sel := selectedIds maxAttempts batchSize fr with hsel
  set rows := fr.filter (fun r => sel.contains r.id) with hrows
  have h1 : (rows.map Row.id).Nodup :=
    (List.Sublist.map Row.id (List.filter_sublist fr)).nodup hids
  have h2 : ∀ a ∈ rows.map Row.id, a ∈ sel := by
    intro a ha
    obtain ⟨r, hrmem, hrid⟩ := List.mem_map.mp ha
    have := (List.mem_filter.mp hrmem).2
    exact hrid ▸ (contains_true_iff _ _).mp this
  calc rows.length = (rows.map Row.id).length := (List.length_map rows Row.id).symm
    _ ≤ sel.length := nodup_subset_length_le _ _ h1 h2
    _ ≤ batchSize := selectedIds_length_le maxAttempts batchSize fr

/-- Claim C2: fetch_and_lock selects at most batch_size rows, all of them
queued with attempt budget remaining, applies exactly the claim update
(state in_progress, owner, last_attempt, attempt_count + 1) to each, returns
exactly the updated rows, the selection is top-of-order (every returned row
precedes, in score DESC then id DESC order, every eligible row not selected),
and with no eligible row it returns an empty list and changes nothing. -/
theorem fetch_and_lock_contract (now : Int) (w : String) (maxAttempts batchSize : Nat)
    (fr : List Row) (hids : (fr.map Row.id).Nodup) :
    FetchSpec now w maxAttempts batchSize fr := by
  refine ⟨fetch_claimed_length_le now w maxAttempts batchSize fr hids, ?_, ?_, ?_, ?_⟩
  · intro r hr
    obtain ⟨r0, h0, helig, _, _, heq⟩ :=
      fetch_claimed_sound now w maxAttempts batchSize fr hids r hr
    obtain ⟨hq, ha⟩ := (eligibleRow_iff maxAttempts r0).mp helig
    exact ⟨r0, h0, hq, ha, heq⟩
  · intro r0 h0 hc
    unfold fetch_and_lock
    simp only
    refine List.mem_map.mpr ⟨r0, List.mem_filter.mpr ⟨h0, hc⟩, ?_⟩
    rw [if_pos hc]
  · intro r hr q hq hqe hqc
    obtain ⟨r0, _, _, _, htake, heq⟩ :=
      fetch_claimed_sound now w maxAttempts batchSize fr hids r hr
    have hsorted := List.sorted_mergeSort claimLE_trans claimLE_total
      (fr.filter (eligibleRow maxAttempts))
    have happ : List.Pairwise (fun x y => claimLE x y = true)
        (((fr.filter (eligibleRow maxAttempts)).mergeSort claimLE).take batchSize ++
          ((fr.filter (eligibleRow maxAttempts)).mergeSort claimLE).drop batchSize) := by
      rw [List.take_append_drop]
      exact hsorted
    have hsplit := List.pairwise_append.mp happ
    have hqmem : q ∈ (fr.filter (eligibleRow maxAttempts)).mergeSort claimLE :=
      List.mem_mergeSort.mpr (List.mem_filter.mpr ⟨hq, hqe⟩)
    have hqdrop : q ∈ ((fr.filter (eligibleRow maxAttempts)).mergeSort claimLE).drop batchSize := by
      rcases List.mem_append.mp (by rw [List.take_append_drop]; exact hqmem :
          q ∈ ((fr.filter (eligibleRow maxAttempts)).mergeSort claimLE).take batchSize ++
            ((fr.filter (eligibleRow maxAttempts)).mergeSort claimLE).drop batchSize) with
        h | h
      · exfalso
        have : q.id ∈ selectedIds maxAttempts batchSize fr :=
          List.mem_map.mpr ⟨q, h, rfl⟩
        rw [(contains_true_iff _ _).mpr this] at hqc
        exact Bool.true_eq_false.mp hqc
      · exact h
    have := hsplit.2.2 r0 htake q hqdrop
    rw [heq, claimLE_claimUpdate]
    exact this
  · intro hnone
    have hfil : fr.filter (eligibleRow maxAttempts) = [] :=
      List.filter_eq_nil_iff.mpr (by intro a ha; simp [hnone a ha])
    have hsel : selectedIds maxAttempts batchSize fr = [] := by
      unfold selectedIds
      rw [hfil, List.mergeSort_nil, List.take_nil]
      rfl
    constructor
    · unfold fetch_and_lock
      simp only [hsel]
      have : fr.filter (fun r => ([] : List Nat).contains r.id) = [] :=
        List.filter_eq_nil_iff.mpr (by intro a _; simp)
      rw [this]
      rfl
    · unfold fetch_and_lock
      simp only [hsel]
      apply List.ext_getElem
      · rw [List.length_map]
      · intro n h1 h2
        simp

theorem fetch_and_lock_contract_witness :
    (([sampleRow, sampleRow2].map Row.id).Nodup) ∧
      FetchSpec 0 "w" 3 5 [sampleRow, sampleRow2] :=
  ⟨by decide, fetch_and_lock_contract 0 "w" 3 5 [sampleRow, sampleRow2] (by decide)⟩

/-- Claim C3: mark_error stores the message and clears the owner on the
targeted row, and sets its state to error exactly when attempt_count has
reached max_attempts, to queued (claimable again) exactly otherwise; rows
with a different id are untouched. -/
theorem mark_error_contract (now : Int) (maxAttempts itemId : Nat) (msg : String)
    (fr : List Row) (r : Row) (hr : r ∈ fr) :
    markErrorRow now maxAttempts itemId msg r ∈ mark_error now maxAttempts itemId msg fr ∧
    (r.id = itemId →
      ((markErrorRow now maxAttempts itemId msg r).state = FState.error ↔
        maxAttempts ≤ r.attempt_count) ∧
      ((markErrorRow now maxAttempts itemId msg r).state = FState.queued ↔
        r.attempt_count < maxAttempts) ∧
      (markErrorRow now maxAttempts itemId msg r).error_message = some msg ∧
      (markErrorRow now maxAttempts itemId msg r).worker_id = none ∧
      (markErrorRow now maxAttempts itemId msg r).attempt_count = r.attempt_count) ∧
    (r.id ≠ itemId → markErrorRow now maxAttempts itemId msg r = r) := by
  refine ⟨List.mem_map_of_mem _ hr, ?_, ?_⟩
  · intro hid
    by_cases h : maxAttempts ≤ r.attempt_count
    all_goals refine ⟨?_, ?_, ?_, ?_, ?_⟩
    all_goals simp [markErrorRow, hid, h]
    all_goals omega
  · intro hne
    unfold markErrorRow
    rw [if_neg hne]

theorem mark_error_contract_witness :
    sampleRow ∈ [sampleRow] ∧
      (markErrorRow 0 3 1 "boom" sampleRow ∈ mark_error 0 3 1 "boom" [sampleRow] ∧
        (sampleRow.id = 1 →
          ((markErrorRow 0 3 1 "boom" sampleRow).state = FState.error ↔
            3 ≤ sampleRow.attempt_count) ∧
          ((markErrorRow 0 3 1 "boom" sampleRow).state = FState.queued ↔
            sampleRow.attempt_count < 3) ∧
          (markErrorRow 0 3 1 "boom" sampleRow).error_message = some "boom" ∧
          (markErrorRow 0 3 1 "boom" sampleRow).worker_id = none ∧
          (markErrorRow 0 3 1 "boom" sampleRow).attempt_count = sampleRow.attempt_count) ∧
        (sampleRow.id ≠ 1 → markErrorRow 0 3 1 "boom" sampleRow = sampleRow)) :=
  ⟨by decide, mark_error_contract 0 3 1 "boom" [sampleRow] sampleRow (by decide)⟩

/-- Claim C4: requeue_stale_items returns the number of transitioned rows,
transitions exactly the rows that are in_progress with an expired lease and
remaining attempt budget (to queued, clearing the owner, preserving
attempt_count), leaves every other row unchanged, and in particular leaves
in_progress rows with exhausted attempt budget in_progress. -/
theorem requeue_stale_contract (now staleThreshold : Int) (maxAttempts : Nat)
    (fr : List Row) :
    ((requeue_stale_items now staleThreshold maxAttempts fr).2 =
      fr.countP (staleRow (now - staleThreshold) maxAttempts)) ∧
    ((requeue_stale_items now staleThreshold maxAttempts fr).1 =
      fr.map (requeueRow now (now - staleThreshold) maxAttempts)) ∧
    (∀ r, staleRow (now - staleThreshold) maxAttempts r = true ↔
      (r.state = FState.in_progress ∧
        (∃ t, r.last_attempt = some t ∧ t < now - staleThreshold) ∧
        r.attempt_count < maxAttempts)) ∧
    (∀ r, staleRow (now - staleThreshold) maxAttempts r = true →
      (requeueRow now (now - staleThreshold) maxAttempts r).state = FState.queued ∧
      (requeueRow now (now - staleThreshold) maxAttempts r).worker_id = none ∧
      (requeueRow now (now - staleThreshold) maxAttempts r).attempt_count =
        r.attempt_count) ∧
    (∀ r, staleRow (now - staleThreshold) maxAttempts r = false →
      requeueRow now (now - staleThreshold) maxAttempts r = r) ∧
    (∀ r, r.state = FState.in_progress → maxAttempts ≤ r.attempt_count →
      requeueRow now (now - staleThreshold) maxAttempts r = r ∧
      (requeueRow now (now - staleThreshold) maxAttempts r).state =
        FState.in_progress) := by
  refine ⟨rfl, rfl, ?_, ?_, ?_, ?_⟩
  · intro r
    cases hla : r.last_attempt <;> simp [staleRow, hla, and_assoc]
  · intro r h
    unfold requeueRow
    rw [if_pos h]
    exact ⟨rfl, rfl, rfl⟩
  · intro r h
    unfold requeueRow
    rw [if_neg (by simp [h])]
  · intro r hst hmax
    have hfalse : staleRow (now - staleThreshold) maxAttempts r = false := by
      simp [staleRow]
      intro _ _
      omega
    have heq : requeueRow now (now - staleThreshold) maxAttempts r = r := by
      unfold requeueRow
      rw [if_neg (by simp [hfalse])]
    refine ⟨heq, ?_⟩
    rw [heq, hst]

theorem requeue_stale_contract_witness :
    (staleRow 90 3 sampleRow = false) ∧ requeueRow 100 90 3 sampleRow = sampleRow :=
  ⟨by decide,
    (requeue_stale_contract 100 10 3 [sampleRow]).2.2.2.2.1 sampleRow (by decide)⟩

lemma markDoneRow_attempt (now : Int) (itemId : Nat) (r : Row) :
    (markDoneRow now itemId r).attempt_count = r.attempt_count := by
  unfold markDoneRow
  split <;> rfl

lemma markErrorRow_attempt (now : Int) (maxAttempts itemId : Nat) (msg : String)
    (r : Row) :
    (markErrorRow now maxAttempts itemId msg r).attempt_count = r.attempt_count := by
  unfold markErrorRow
  split <;> rfl

lemma requeueRow_attempt (now threshold : Int) (maxAttempts : Nat) (r : Row) :
    (requeueRow now threshold maxAttempts r).attempt_count = r.attempt_count := by
  unfold requeueRow
  split <;> rfl

lemma forall2_attempt_le (fr : List Row) (f : Row → Row)
    (h : ∀ r, r.attempt_count ≤ (f r).attempt_count) :
    List.Forall₂ (fun a b => a ≤ b) (fr.map Row.attempt_count)
      ((fr.map f).map Row.attempt_count) := by
  induction fr with
  | nil => exact List.Forall₂.nil
  | cons r tl ih => exact List.Forall₂.cons (h r) ih

/-- Claim C7: attempt_count is non-decreasing under every operation and is
changed only by the claim transition: mark_done, mark_error and
requeue_stale_items preserve every row's attempt_count exactly, and
fetch_and_lock never decreases it. -/
theorem attempt_count_only_claim (now staleThreshold : Int) (w msg : String)
    (maxAttempts itemId batchSize : Nat) (fr : List Row) :
    (mark_done now itemId fr).map Row.attempt_count = fr.map Row.attempt_count ∧
    (mark_error now maxAttempts itemId msg fr).map Row.attempt_count =
      fr.map Row.attempt_count ∧
    ((requeue_stale_items now staleThreshold maxAttempts fr).1).map Row.attempt_count =
      fr.map Row.attempt_count ∧
    List.Forall₂ (fun a b => a ≤ b) (fr.map Row.attempt_count)
      (((fetch_and_lock now w maxAttempts batchSize fr).frontier).map Row.attempt_count) := by
  refine ⟨?_, ?_, ?_, ?_⟩
  · unfold mark_done
    rw [List.map_map]
    exact List.map_congr_left (fun r _ => markDoneRow_attempt now itemId r)
  · unfold mark_error
    rw [List.map_map]
    exact List.map_congr_left (fun r _ => markErrorRow_attempt now maxAttempts itemId msg r)
  · unfold requeue_stale_items
    simp only
    rw [List.map_map]
    exact List.map_congr_left
      (fun r _ => requeueRow_attempt now (now - staleThreshold) maxAttempts r)
  · unfold fetch_and_lock
    simp only
    apply forall2_attempt_le
    intro r
    split
    · exact Nat.le_succ _
    · exact Nat.le_refl _

/-- Claim C5 (code bug): the INSERT of add_urls names four target columns
(url, score, metadata, state) but each tuple handed to execute_values carries
only three expressions, so the database rejects the statement and every
non-empty add_urls call — in particular a duplicate enqueue of a key already
present — raises instead of being the silent idempotent no-op that the claim
and the function's own docstring describe; only the empty call succeeds,
leaving the table untouched. -/
theorem add_urls_raises :
    insertValueExprs ≠ insertTargetColumns ∧
    add_urls 0 "x" ["https://a"] ([sampleRow], 10) =
      Except.error "INSERT has more target columns than expressions" ∧
    add_urls 0 "x" [] ([sampleRow], 10) = Except.ok ([sampleRow], 10) :=
  ⟨by decide, rfl, rfl⟩

lemma rowCycle_iter (now1 now2 : Int) (w msg : String) (maxAttempts : Nat)
    (hmax : 1 ≤ maxAttempts) (r : Row) (hq : r.state = FState.queued)
    (h0 : r.attempt_count = 0) :
    ∀ k, k ≤ maxAttempts →
      ((rowCycle now1 now2 w msg maxAttempts)^[k] r).attempt_count = k ∧
      ((rowCycle now1 now2 w msg maxAttempts)^[k] r).state =
        (if k < maxAttempts then FState.queued else FState.error) := by
  intro k
  induction k with
  | zero =>
    intro _
    rw [Function.iterate_zero_apply, if_pos (by omega)]
    exact ⟨h0, hq⟩
  | succ k ih =>
    intro hk
    obtain ⟨ha, hs⟩ := ih (by omega)
    rw [if_pos (by omega : k < maxAttempts)] at hs
    rw [Function.iterate_succ_apply']
    set r2 := (rowCycle now1 now2 w msg maxAttempts)^[k] r with hr2
    have hattempt : (claimUpdate now1 w r2).attempt_count = k + 1 := by
      simp [claimUpdate, ha]
    have hid : (claimUpdate now1 w r2).id = r2.id := rfl
    constructor
    · show (markErrorRow now2 maxAttempts r2.id msg (claimUpdate now1 w r2)).attempt_count = k + 1
      rw [markErrorRow_attempt, hattempt]
    · show (markErrorRow now2 maxAttempts r2.id msg (claimUpdate now1 w r2)).state =
        if k + 1 < maxAttempts then FState.queued else FState.error
      have hform : (markErrorRow now2 maxAttempts r2.id msg (claimUpdate now1 w r2)).state =
          if maxAttempts ≤ k + 1 then FState.error else FState.queued := by
        unfold markErrorRow
        rw [if_pos hid, hattempt]
      rw [hform]
      by_cases hlt : k + 1 < maxAttempts
      · rw [if_neg (by omega), if_pos hlt]
      · rw [if_pos (by omega), if_neg hlt]

/-- Claim C6: starting from a fresh queued row, max_attempts claim/mark_error
cycles leave the row in state error with attempt_count = max_attempts, and no
fetch_and_lock call ever returns a row whose id belongs to an error row
(claims select only queued rows with attempt budget left). -/
theorem retry_budget_terminal (now1 now2 : Int) (w msg : String) (maxAttempts : Nat)
    (hmax : 1 ≤ maxAttempts) (r : Row) (hq : r.state = FState.queued)
    (h0 : r.attempt_count = 0) :
    ((rowCycle now1 now2 w msg maxAttempts)^[maxAttempts] r).state = FState.error ∧
    ((rowCycle now1 now2 w msg maxAttempts)^[maxAttempts] r).attempt_count = maxAttempts ∧
    (∀ (fr : List Row) (batchSize : Nat) (now3 : Int) (w2 : String),
      (fr.map Row.id).Nodup → ∀ s ∈ fr, s.state = FState.error →
      ∀ rc ∈ (fetch_and_lock now3 w2 maxAttempts batchSize fr).claimed, rc.id ≠ s.id) := by
  obtain ⟨ha, hs⟩ := rowCycle_iter now1 now2 w msg maxAttempts hmax r hq h0 maxAttempts le_rfl
  refine ⟨by rw [hs, if_neg (lt_irrefl maxAttempts)], ha, ?_⟩
  intro fr batchSize now3 w2 hids s hsmem hserr rc hrc hideq
  obtain ⟨r0, h0mem, helig, _, _, heq⟩ :=
    fetch_claimed_sound now3 w2 maxAttempts batchSize fr hids rc hrc
  have hrc_id : rc.id = r0.id := by rw [heq]; rfl
  have hr0s : r0 = s :=
    List.inj_on_of_nodup_map hids h0mem hsmem (by rw [← hrc_id, hideq])
  rw [hr0s] at helig
  have hqs := ((eligibleRow_iff maxAttempts s).mp helig).1
  rw [hqs] at hserr
  exact FState.noConfusion hserr

theorem retry_budget_terminal_witness :
    (1 ≤ 3 ∧ sampleRow.state = FState.queued ∧ sampleRow.attempt_count = 0) ∧
    ((rowCycle 0 1 "w" "e" 3)^[3] sampleRow).state = FState.error :=
  ⟨⟨by decide, by decide, by decide⟩,
    (retry_budget_terminal 0 1 "w" "e" 3 (by decide) sampleRow (by decide) (by decide)).1⟩

/-- Claim C8 (counterexample): mark_error is an exposed operation and carries
no guard on the current state, so a single call on a row already in the
terminal state done moves it back to queued — done is not terminal under the
exposed operations. -/
theorem done_row_moved_by_mark_error :
    doneRow.state = FState.done ∧
    (mark_error 9 3 3 "late failure" [doneRow]).map Row.state = [FState.queued] :=
  ⟨rfl, rfl⟩

/-- Claim C8 (amended): the state-guarded transitions hold — fetch_and_lock
modifies only queued rows (to in_progress) and requeue_stale_items modifies
only stale in_progress rows (to queued) — but mark_done and mark_error are
unguarded: on the targeted row mark_done always yields done and mark_error
always yields queued or error, whatever the previous state; terminality of
done and error is a calling discipline, not enforced by the operations. -/
theorem state_transition_guards (now threshold : Int) (w msg : String)
    (maxAttempts batchSize itemId : Nat) (fr : List Row)
    (hids : (fr.map Row.id).Nodup) :
    (∀ r ∈ fr, r.state ≠ FState.queued →
      ∀ r2 ∈ (fetch_and_lock now w maxAttempts batchSize fr).frontier,
        r2.id = r.id → r2 = r) ∧
    (∀ r ∈ (fetch_and_lock now w maxAttempts batchSize fr).claimed,
        r.state = FState.in_progress) ∧
    (∀ r, r.state ≠ FState.in_progress → requeueRow now threshold maxAttempts r = r) ∧
    (∀ r, staleRow threshold maxAttempts r = true →
      (requeueRow now threshold maxAttempts r).state = FState.queued) ∧
    (∀ r, r.id = itemId → (markDoneRow now itemId r).state = FState.done) ∧
    (∀ r, r.id = itemId →
      (markErrorRow now maxAttempts itemId msg r).state = FState.queued ∨
      (markErrorRow now maxAttempts itemId msg r).state = FState.error) := by
  refine ⟨?_, ?_, ?_, ?_, ?_, ?_⟩
  · intro r hr hrstate r2 hr2 hid2
    unfold fetch_and_lock at hr2
    simp only at hr2
    obtain ⟨r0, h0, heq⟩ := List.mem_map.mp hr2
    have hupd : (if (selectedIds maxAttempts batchSize fr).contains r0.id = true
        then claimUpdate now w r0 else r0).id = r0.id := by
      split <;> rfl
    have hid0 : r0.id = r.id := by
      rw [← hid2, ← heq, hupd]
    have hr0r : r0 = r := List.inj_on_of_nodup_map hids h0 hr hid0
    subst hr0r
    have hnc : ¬((selectedIds maxAttempts batchSize fr).contains r0.id = true) := by
      intro hc
      obtain ⟨q, hqf, hqe, hqid, _⟩ :=
        mem_selectedIds maxAttempts batchSize fr r0.id ((contains_true_iff _ _).mp hc)
      have hqr : q = r0 := List.inj_on_of_nodup_map hids hqf h0 hqid
      rw [hqr] at hqe
      exact hrstate ((eligibleRow_iff maxAttempts r0).mp hqe).1
    rw [← heq, if_neg hnc]
  · intro r hr
    obtain ⟨r0, _, _, heq⟩ := fetch_claimed_mem now w maxAttempts batchSize fr r hr
    rw [heq]
    rfl
  · intro r hrs
    unfold requeueRow
    rw [if_neg ?_]
    intro h
    exact hrs ((staleRow_true_iff threshold maxAttempts r).mp h).1
  · intro r h
    unfold requeueRow
    rw [if_pos h]
  · intro r hid
    unfold markDoneRow
    rw [if_pos hid]
  · intro r hid
    unfold markErrorRow
    rw [if_pos hid]
    by_cases h : maxAttempts ≤ r.attempt_count
    · right
      simp [h]
    · left
      simp [h]

theorem state_transition_guards_witness :
    (([sampleRow].map Row.id).Nodup ∧ sampleRow.id = 1) ∧
    (markDoneRow 0 1 sampleRow).state = FState.done :=
  ⟨⟨by decide, rfl⟩,
    (state_transition_guards 0 0 "w" "m" 3 5 1 [sampleRow] (by decide)).2.2.2.2.1
      sampleRow rfl⟩

/-- Claim C9 (counterexample): on a frontier with no eligible rows the fetch
returns an empty batch and that worker-loop pass skips requeue_stale_items —
the reaper is not invoked on empty-batch passes. -/
theorem empty_pass_skips_reaper :
    (fetch_and_lock 0 "w" 3 5 []).claimed = [] ∧
    (worker_pass 0 "w" 3 5 10 (fun _ => true) []).2 = false :=
  ⟨rfl, rfl⟩

/-- Claim C9 (amended): within the loop body, a pass invokes the Stale Reaper
exactly when its claimed batch is non-empty; a pass whose fetch returns an
empty batch sleeps and skips the reaper (the loop additionally runs the
reaper once at startup, and a separate watchdog mode runs only the reaper). -/
theorem reaper_iff_nonempty_batch (now staleThreshold : Int) (w : String)
    (maxAttempts batchSize : Nat) (process : Row → Bool) (fr : List Row) :
    (worker_pass now w maxAttempts batchSize staleThreshold process fr).2 =
      !(fetch_and_lock now w maxAttempts batchSize fr).claimed.isEmpty := by
  unfold worker_pass
  by_cases h : (fetch_and_lock now w maxAttempts batchSize fr).claimed.isEmpty = true
  · rw [if_pos h, h]
    rfl
  · rw [if_neg h]
    simp only [Bool.not_eq_true] at h
    rw [h]
    rfl

/-- Claim C10 (counterexample): get_stats acquires its connection before the
try block, so a connection-acquisition failure propagates to the caller —
get_stats can raise, and on that path a storage failure is distinguishable
from an empty frontier, which returns the empty dictionary. -/
theorem get_stats_raises_on_connection_failure :
    get_stats (Except.error "connection pool exhausted") (Except.ok []) =
      Except.error "connection pool exhausted" ∧
    get_stats (Except.ok ()) (Except.ok []) = Except.ok [] :=
  ⟨rfl, rfl⟩

/-- Claim C10 (amended): a connection-acquisition failure propagates out of
get_stats (get_connection runs before the try block); once a connection is
held, any failure of the statistics query is swallowed into the empty
dictionary, indistinguishable from an empty frontier, and on success the
result holds exactly one entry per occurring state whose aggregates are the
count, the average score and the maximum attempt_count of that state's rows;
the operation only reads the table. -/
theorem get_stats_contract (ce e : String) (fr : List Row) (s : FState)
    (st : StateStat) (hmem : (s, st) ∈ statsRows fr) :
    get_stats (Except.error ce) (Except.ok fr) = Except.error ce ∧
    get_stats (Except.ok ()) (Except.error e) = Except.ok [] ∧
    get_stats (Except.ok ()) (Except.error e) = get_stats (Except.ok ()) (Except.ok []) ∧
    get_stats (Except.ok ()) (Except.ok fr) = Except.ok (statsRows fr) ∧
    ((statsRows fr).map Prod.fst).Nodup ∧
    (∀ r ∈ fr, r.state ∈ (statsRows fr).map Prod.fst) ∧
    (∃ r ∈ fr, r.state = s) ∧
    st.count = fr.countP (fun r => r.state == s) ∧
    st.count ≠ 0 ∧
    st.avg_score =
      ((fr.filter (fun r => r.state == s)).map Row.score).sum / (st.count : Rat) ∧
    st.max_attempts =
      ((fr.filter (fun r => r.state == s)).map Row.attempt_count).foldr Nat.max 0 := by
  have hfst : (statsRows fr).map Prod.fst = (fr.map Row.state).dedup := by
    unfold statsRows
    rw [List.map_map]
    rw [show (Prod.fst ∘ fun s => (s, statsFor fr s)) = id from rfl]
    exact List.map_id _
  obtain ⟨s0, hs0, heqp⟩ := List.mem_map.mp hmem
  have hs : s0 = s := congrArg Prod.fst heqp
  have hst : statsFor fr s = st := by
    rw [← hs]
    exact congrArg Prod.snd heqp
  subst hs
  have hsmem : ∃ r ∈ fr, r.state = s0 := by
    have := List.mem_dedup.mp hs0
    obtain ⟨r, hrmem, hrs⟩ := List.mem_map.mp this
    exact ⟨r, hrmem, hrs⟩
  refine ⟨rfl, rfl, rfl, rfl, ?_, ?_, hsmem, ?_, ?_, ?_, ?_⟩
  · rw [hfst]
    exact List.nodup_dedup _
  · intro r hr
    rw [hfst]
    exact List.mem_dedup.mpr (List.mem_map.mpr ⟨r, hr, rfl⟩)
  · rw [← hst]
    exact List.countP_eq_length_filter _ _ ▸ rfl
  · obtain ⟨r, hrmem, hrs⟩ := hsmem
    have hrf : r ∈ fr.filter (fun r => r.state == s0) :=
      List.mem_filter.mpr ⟨hrmem, by simp [hrs]⟩
    rw [← hst]
    intro hzero
    have : fr.filter (fun r => r.state == s0) = [] := List.length_eq_zero.mp hzero
    rw [this] at hrf
    exact List.not_mem_nil r hrf
  · rw [← hst]
    rfl
  · rw [← hst]
    rfl

theorem get_stats_contract_witness :
    ((FState.queued, statsFor [sampleRow] FState.queued) ∈ statsRows [sampleRow]) ∧
    (statsFor [sampleRow] FState.queued).count =
      [sampleRow].countP (fun r => r.state == FState.queued) :=
  ⟨List.Mem.head _,
    (get_stats_contract "pool" "boom" [sampleRow] FState.queued
      (statsFor [sampleRow] FState.queued) (List.Mem.head _)).2.2.2.2.2.2.2.1⟩

lemma lockedByOther_false (locks : List (Nat × Tx)) (t : Tx) (i : Nat)
    (h : lockedByOther locks t i = false) : (i, otherTx t) ∉ locks := by
  intro hmem
  have htrue : locks.any (fun p => p.1 == i && p.2 == otherTx t) = true :=
    List.any_eq_true.mpr ⟨(i, otherTx t), hmem, by simp⟩
  unfold lockedByOther at h
  rw [htrue] at h
  exact Bool.noConfusion h

lemma txStep_inv (t : Tx) (s : ClaimRace) (h : RaceInv s) : RaceInv (txStep t s) := by
  obtain ⟨hA, hB, hx⟩ := h
  cases t
  case A =>
    unfold txStep
    simp only [getTx]
    cases hp : s.a.pending with
    | nil => exact ⟨hA, hB, hx⟩
    | cons i rest =>
      simp only [txStepGo, getTx]
      by_cases hb : s.a.budget = 0
      · rw [if_pos hb]
        simp only [setTx]
        exact ⟨hA, hB, hx⟩
      · rw [if_neg hb]
        by_cases hl : lockedByOther s.locks Tx.A i = true
        · rw [if_pos hl]
          simp only [setTx]
          exact ⟨hA, hB, hx⟩
        · rw [if_neg hl]
          simp only [setTx]
          refine ⟨?_, ?_, ?_⟩
          · intro j hj
            rcases List.mem_cons.mp hj with hj2 | hj2
            · rw [hj2]
              exact List.mem_cons_self _ _
            · exact List.mem_cons_of_mem _ (hA j hj2)
          · intro j hj
            exact List.mem_cons_of_mem _ (hB j hj)
          · rintro j ⟨hjA, hjB⟩
            have hl2 : lockedByOther s.locks Tx.A i = false := by
              simpa using hl
            have hjB2 : (j, Tx.B) ∈ s.locks := by
              rcases List.mem_cons.mp hjB with hh | hh
              · exact absurd (congrArg Prod.snd hh) (by simp)
              · exact hh
            rcases List.mem_cons.mp hjA with hh | hh
            · have hji : j = i := congrArg Prod.fst hh
              exact lockedByOther_false s.locks Tx.A i hl2 (hji ▸ hjB2)
            · exact hx j ⟨hh, hjB2⟩
  case B =>
    unfold txStep
    simp only [getTx]
    cases hp : s.b.pending with
    | nil => exact ⟨hA, hB, hx⟩
    | cons i rest =>
      simp only [txStepGo, getTx]
      by_cases hb : s.b.budget = 0
      · rw [if_pos hb]
        simp only [setTx]
        exact ⟨hA, hB, hx⟩
      · rw [if_neg hb]
        by_cases hl : lockedByOther s.locks Tx.B i = true
        · rw [if_pos hl]
          simp only [setTx]
          exact ⟨hA, hB, hx⟩
        · rw [if_neg hl]
          simp only [setTx]
          refine ⟨?_, ?_, ?_⟩
          · intro j hj
            exact List.mem_cons_of_mem _ (hA j hj)
          · intro j hj
            rcases List.mem_cons.mp hj with hj2 | hj2
            · rw [hj2]
              exact List.mem_cons_self _ _
            · exact List.mem_cons_of_mem _ (hB j hj2)
          · rintro j ⟨hjA, hjB⟩
            have hl2 : lockedByOther s.locks Tx.B i = false := by
              simpa using hl
            have hjA2 : (j, Tx.A) ∈ s.locks := by
              rcases List.mem_cons.mp hjA with hh | hh
              · exact absurd (congrArg Prod.snd hh) (by simp)
              · exact hh
            rcases List.mem_cons.mp hjB with hh | hh
            · have hji : j = i := congrArg Prod.fst hh
              exact lockedByOther_false s.locks Tx.B i hl2 (hji ▸ hjA2)
            · exact hx j ⟨hjA2, hh⟩

lemma runRace_inv (sched : List Tx) (s : ClaimRace) (h : RaceInv s) :
    RaceInv (runRace sched s) := by
  induction sched generalizing s with
  | nil => exact h
  | cons t ts ih => exact ih (txStep t s) (txStep_inv t s h)

lemma initRace_inv (maxAttempts bA bB : Nat) (fr : List Row) :
    RaceInv (initRace maxAttempts bA bB fr) :=
  ⟨fun i h => absurd h (List.not_mem_nil i),
    fun i h => absurd h (List.not_mem_nil i),
    fun i h => absurd h.1 (List.not_mem_nil (i, Tx.A))⟩

/-- Claim C1: under every interleaving of two concurrent fetch_and_lock
executions over the same frontier — FOR UPDATE acquiring an exclusive row
lock on each selected row, SKIP LOCKED skipping rows locked by the concurrent
transaction — the two result sets are disjoint: no row id is selected by both
transactions. -/
theorem concurrent_claims_disjoint (sched : List Tx) (maxAttempts bA bB : Nat)
    (fr : List Row) (i : Nat)
    (hi : i ∈ (runRace sched (initRace maxAttempts bA bB fr)).a.acquired) :
    i ∉ (runRace sched (initRace maxAttempts bA bB fr)).b.acquired := by
  intro hb
  have h := runRace_inv sched (initRace maxAttempts bA bB fr)
    (initRace_inv maxAttempts bA bB fr)
  exact h.2.2 i ⟨h.1 i hi, h.2.1 i hb⟩

theorem concurrent_claims_disjoint_witness :
    (2 ∈ (runRace [Tx.A, Tx.B, Tx.B] (initRace 3 1 1 [sampleRow2, sampleRow])).a.acquired) ∧
    (2 ∉ (runRace [Tx.A, Tx.B, Tx.B] (initRace 3 1 1 [sampleRow2, sampleRow])).b.acquired) := by
  have hscan : scanOrder 3 [sampleRow2, sampleRow] = [2, 1] := by
    unfold scanOrder
    rw [List.mergeSort_of_sorted (by decide)]
    rfl
  have hmem : 2 ∈ (runRace [Tx.A, Tx.B, Tx.B]
      (initRace 3 1 1 [sampleRow2, sampleRow])).a.acquired := by
    unfold initRace
    rw [hscan]
    decide
  exact ⟨hmem,
    concurrent_claims_disjoint [Tx.A, Tx.B, Tx.B] 3 1 1 [sampleRow2, sampleRow] 2 hmem⟩
